import Mathlib

/-!
Verification of the chart-sentry diff pipeline's domain logic.

The Go sources are shallowly embedded: Go strings are modelled as Lean
`String`s, and the Go standard-library string operations the code relies on
(`strings.HasPrefix`, `strings.Contains`, `strings.TrimSpace`,
`strings.Split`, `strings.SplitN`, `strings.Join`) are reimplemented here
over the underlying character lists, so that everything evaluates inside the
kernel.  Go slices become Lean `List`s and Go maps used only for
first-occurrence bookkeeping become association lists keyed by the same
strings.
-/

/-! ## Character-list implementations of the Go string operations -/

/-- Decides whether `p` is a prefix of `s` (character lists);
implements Go `strings.HasPrefix` after `.data`. -/
def isPrefixCharsOf : List Char → List Char → Bool
  | [], _ => true
  | _ :: _, [] => false
  | a :: as, b :: bs => a = b && isPrefixCharsOf as bs

/-- Decides whether `pat` occurs as a contiguous substring of `s`
(character lists); implements Go `strings.Contains` after `.data`. -/
def hasSubstrChars (pat : List Char) : List Char → Bool
  | [] => isPrefixCharsOf pat []
  | c :: cs => isPrefixCharsOf pat (c :: cs) || hasSubstrChars pat cs

/-- Whitespace characters recognised by `strings.TrimSpace` on the ASCII
inputs this pipeline handles. -/
def isSpaceChar (c : Char) : Bool :=
  c = ' ' || c = '\t' || c = '\n' || c = '\r'

/-- Removes leading and trailing whitespace from a character list. -/
def trimChars (l : List Char) : List Char :=
  ((l.dropWhile isSpaceChar).reverse.dropWhile isSpaceChar).reverse

/-- Splits a character list at every occurrence of `sep`; `acc` holds the
characters of the current field in reverse. -/
def splitOnCharAux (sep : Char) (acc : List Char) : List Char → List (List Char)
  | [] => [acc.reverse]
  | c :: cs =>
    if c = sep then acc.reverse :: splitOnCharAux sep [] cs
    else splitOnCharAux sep (c :: acc) cs

/-- Joins character lists, inserting `sep` between consecutive entries. -/
def joinWithChar (sep : Char) : List (List Char) → List Char
  | [] => []
  | [l] => l
  | l :: ls => l ++ sep :: joinWithChar sep ls

/-- Go `strings.HasPrefix s p`. -/
def goHasPre (s p : String) : Bool :=
  isPrefixCharsOf p.data s.data

/-- Go `strings.Contains s sub`. -/
def goContainsStr (s sub : String) : Bool :=
  hasSubstrChars sub.data s.data

/-- Go `strings.TrimSpace s`. -/
def goTrimSpace (s : String) : String :=
  String.mk (trimChars s.data)

/-- Go `strings.Split s "\n"`. -/
def goSplitLines (s : String) : List String :=
  (splitOnCharAux '\n' [] s.data).map String.mk

/-- Go `strings.Join lines "\n"`. -/
def goJoinLines (lines : List String) : String :=
  String.mk (joinWithChar '\n' (lines.map String.data))

/-- Go `strings.Split s "/"`. -/
def goSplitSlash (s : String) : List String :=
  (splitOnCharAux '/' [] s.data).map String.mk

/-- Go `strings.SplitN s "/" 3`: like `goSplitSlash` but the third field
keeps the remainder of the string unsplit. -/
def goSplitN3Slash (s : String) : List String :=
  match goSplitSlash s with
  | a :: b :: c :: rest => [a, b, String.mk (joinWithChar '/' ((c :: rest).map String.data))]
  | other => other

/-- Concatenation of a list of strings in order, as produced by repeated
`strings.Builder.WriteString` calls in a Go loop. -/
def strConcat : List String → String
  | [] => ""
  | s :: rest => s ++ strConcat rest

/-- Go `strings.Join parts "\n"` expressed at the `String` level by the
builder pattern `if i > 0 { sb.WriteString("\n") }` used in the source. -/
def joinSepNewline : List String → String
  | [] => ""
  | [s] => s
  | s :: rest => s ++ "\n" ++ joinSepNewline rest

/-! ## Domain data model (internal/diff/domain/diff_result.go) -/

/-- Status represents the outcome of a diff operation
(`StatusSuccess`, `StatusChanges`, `StatusError`). -/
inductive Status where
  | StatusSuccess
  | StatusChanges
  | StatusError
deriving DecidableEq, Repr

/-- DiffResult represents the diff output for a single chart + environment
pair, mirroring the Go struct field for field. -/
structure DiffResult where
  ChartName : String
  Environment : String
  BaseRef : String
  HeadRef : String
  Status : Status
  HasChanges : Bool
  UnifiedDiff : String
  SemanticDiff : String
  Summary : String
deriving DecidableEq, Repr

/-- PreferredDiff returns the semantic diff if available, otherwise the
unified diff (method `DiffResult.PreferredDiff`). -/
def DiffResult.PreferredDiff (r : DiffResult) : String :=
  if r.SemanticDiff ≠ "" then r.SemanticDiff else r.UnifiedDiff

/-- CountByStatus returns counts of results grouped by status
(`success, changes, errors`). -/
def CountByStatus : List DiffResult → Nat × Nat × Nat
  | [] => (0, 0, 0)
  | r :: rest =>
    let c := CountByStatus rest
    match r.Status with
    | .StatusSuccess => (c.1 + 1, c.2.1, c.2.2)
    | .StatusChanges => (c.1, c.2.1 + 1, c.2.2)
    | .StatusError => (c.1, c.2.1, c.2.2 + 1)

/-- FormatDiffLabel creates a display name for a diff comparison,
for example `my-app/prod (main)`. -/
def FormatDiffLabel (chartName envName ref : String) : String :=
  chartName ++ "/" ++ envName ++ " (" ++ ref ++ ")"

/-- Go's `order` map in `GroupByChart` sends a chart name to the index of
its group; here each group is paired with its key name instead, which is the
same information because indices are assigned in creation order.  This
updates the (unique) group keyed `name` by appending `r`. -/
def updateGroup (name : String) (r : DiffResult) (gs : List (String × List DiffResult)) :
    List (String × List DiffResult) :=
  gs.map fun g => if g.1 = name then (g.1, g.2 ++ [r]) else g

/-- Loop of `GroupByChart`: for each result, append to the existing group
for its chart name, or create a new group at the end on first occurrence. -/
def groupByChartAux (gs : List (String × List DiffResult)) :
    List DiffResult → List (String × List DiffResult)
  | [] => gs
  | r :: rest =>
    if (gs.map Prod.fst).contains r.ChartName then
      groupByChartAux (updateGroup r.ChartName r gs) rest
    else
      groupByChartAux (gs ++ [(r.ChartName, [r])]) rest

/-- GroupByChart groups results by ChartName, preserving insertion order. -/
def GroupByChart (results : List DiffResult) : List (List DiffResult) :=
  (groupByChartAux [] results).map Prod.snd

/-! ## Per-environment classification (integration flow in the app layer) -/

/-- Summary line built by the pipeline when changes are detected, via
`fmt.Sprintf("Changes detected in %s for environment %s.", chart, env.Name)`. -/
def changesSummary (chart env : String) : String :=
  "Changes detected in " ++ chart ++ " for environment " ++ env ++ "."

/-- Classification applied after both diff outputs are computed for one
(chart, environment) pair: any non-empty output yields `StatusChanges`,
otherwise `StatusSuccess` with the fixed summary. -/
def classifyDiff (chart env semanticOut unifiedOut : String) : Status × String :=
  if semanticOut ≠ "" ∨ unifiedOut ≠ "" then
    (.StatusChanges, changesSummary chart env)
  else
    (.StatusSuccess, "No changes detected.")

/-- DiffResult constructed by the pipeline for one environment from the two
diff outputs (the `domain.DiffResult{...}` literal in the app layer). -/
def mkDiffResult (chart env baseRef headRef semanticOut unifiedOut : String) : DiffResult :=
  { ChartName := chart
    Environment := env
    BaseRef := baseRef
    HeadRef := headRef
    Status := (classifyDiff chart env semanticOut unifiedOut).1
    HasChanges := false
    UnifiedDiff := unifiedOut
    SemanticDiff := semanticOut
    Summary := (classifyDiff chart env semanticOut unifiedOut).2 }

/-- Modelled from the spec: the `Error`-status result emitted by the
environment runner when rendering fails (the runner itself is not among the
sources here; per the spec, the environment's result is `Error` with
`summary` set to a description of the failure and no diff output). -/
def mkErrorResult (chart env baseRef headRef failureMsg : String) : DiffResult :=
  { ChartName := chart
    Environment := env
    BaseRef := baseRef
    HeadRef := headRef
    Status := .StatusError
    HasChanges := false
    UnifiedDiff := ""
    SemanticDiff := ""
    Summary := failureMsg }

/-- Status invariant on a DiffResult, as documented on the data model. -/
def statusInvariant (r : DiffResult) : Prop :=
  (r.Status = .StatusSuccess → r.UnifiedDiff = "" ∧ r.SemanticDiff = "") ∧
  (r.Status = .StatusChanges → r.UnifiedDiff ≠ "" ∨ r.SemanticDiff ≠ "") ∧
  (r.Status = .StatusError → r.UnifiedDiff = "" ∧ r.SemanticDiff = "")

/-! ## Typed errors (internal/diff/domain/errors.go) -/

/-- Go error values as the pipeline sees them: a typed `NotFoundError`
carrying resource and ref, an error wrapping another via `fmt.Errorf`
with `%w`, or a plain message-only error. -/
inductive GoError where
  | notFoundErr (resource ref : String)
  | wrapErr (msg : String) (inner : GoError)
  | basicErr (msg : String)
deriving DecidableEq, Repr

/-- Message of an error value: `NotFoundError.Error()` formats
`"%s not found at ref %s"`; a wrapping error carries its formatted text. -/
def errorMessage : GoError → String
  | .notFoundErr resource ref => resource ++ " not found at ref " ++ ref
  | .wrapErr msg _ => msg
  | .basicErr msg => msg

/-- Go `errors.As(err, &notFoundErr)` for target type `*NotFoundError`:
walks the `Unwrap` chain looking for a typed NotFoundError. -/
def asNotFoundError : GoError → Bool
  | .notFoundErr _ _ => true
  | .wrapErr _ inner => asNotFoundError inner
  | .basicErr _ => false

/-- IsNotFound checks if an error is or wraps a NotFoundError; a Go `error`
may be `nil`, modelled by `Option`. -/
def IsNotFound : Option GoError → Bool
  | none => false
  | some e => asNotFoundError e

/-! ## Report formatting (check run and PR comment) -/

/-- Per-result display label used by both report formats: `status :=
"No Changes"; if r.Status == StatusChanges { status = "Changed" }`. -/
def statusLabel (s : Status) : String :=
  if s = .StatusChanges then "Changed" else "No Changes"

/-- Counts of changed / unchanged results accumulated by the loop at the
top of `formatCheckRunMarkdown`. -/
def countChangedUnchanged : List DiffResult → Nat × Nat
  | [] => (0, 0)
  | r :: rest =>
    let c := countChangedUnchanged rest
    if r.Status = .StatusChanges then (c.1 + 1, c.2) else (c.1, c.2 + 1)

/-- Collapsible environment section of the check-run document, one per
result (loop body of `formatCheckRunMarkdown`). -/
def envSection (r : DiffResult) : String :=
  "<details><summary>" ++ r.Environment ++ " — " ++ statusLabel r.Status ++ "</summary>\n\n" ++
  (if r.UnifiedDiff = "" ∧ r.SemanticDiff = "" then
    "No changes detected.\n"
  else
    (if r.SemanticDiff ≠ "" then
      "**Semantic Diff (dyff):**\n" ++ "```diff\n" ++ r.SemanticDiff ++ "\n```\n\n"
    else "") ++
    (if r.UnifiedDiff ≠ "" then
      "**Unified Diff (line-based):**\n" ++ "```diff\n" ++ r.UnifiedDiff ++ "\n```\n"
    else "")) ++
  "\n</details>\n"

/-- formatCheckRunMarkdown produces the markdown for one chart's check run:
header with chart name and conclusion token, summary counts, then one
collapsible section per environment separated by blank lines. -/
def formatCheckRunMarkdown (results : List DiffResult) : String :=
  match results with
  | [] => ""
  | r0 :: _ =>
    let counts := countChangedUnchanged results
    let conclusion := if counts.1 > 0 then "neutral" else "success"
    "# chart-sentry: " ++ r0.ChartName ++ "\n\n" ++
    "**Status:** completed\n" ++
    "**Conclusion:** " ++ conclusion ++ "\n\n" ++
    "## Helm diff — " ++ r0.ChartName ++ "\n\n" ++
    "### Summary\n" ++
    "Analyzed " ++ toString results.length ++ " environment(s): " ++
      toString counts.1 ++ " changed, " ++ toString counts.2 ++ " unchanged\n\n" ++
    "### Output\n" ++
    joinSepNewline (results.map envSection)

/-- Table row written for one result by `formatPRComment`. -/
def rowFor (r : DiffResult) : String :=
  "| " ++ r.ChartName ++ " | " ++ r.Environment ++ " | " ++ statusLabel r.Status ++ " |\n"

/-- Detail section written for one result by `formatPRComment`: heading,
then either the fixed no-changes line or a collapsible block with the
semantic diff if non-empty, else the unified diff. -/
def detailFor (r : DiffResult) : String :=
  "### " ++ r.ChartName ++ "/" ++ r.Environment ++ "\n" ++
  (if r.Status ≠ .StatusChanges then
    "No changes detected.\n\n"
  else
    "<details><summary>View diff</summary>\n\n" ++
    "```diff\n" ++ (if r.SemanticDiff = "" then r.UnifiedDiff else r.SemanticDiff) ++ "\n```\n" ++
    "</details>\n\n")

/-- formatPRComment produces the summary comment aggregating all
environment diffs: one table row per result, then one detail section per
result. -/
def formatPRComment (results : List DiffResult) : String :=
  "## Chart-Sentry Diff Report\n\n" ++
  "| Chart | Environment | Status |\n" ++
  "|-------|-------------|--------|\n" ++
  strConcat (results.map rowFor) ++ "\n" ++
  strConcat (results.map detailFor)

/-! ## dyff output normalization (adapters/dyff_diff) -/

/-- Apostrophe character, used inside one of the dyff banner fragments. -/
def apos : String := String.mk [Char.ofNat 39]

/-- Detects a dyff banner line exactly as `cleanDyffOutput` does: fixed
ASCII-art fragments (some matched on the raw line, some on its trimmed
form) and the "returned ... difference(s)" footer. -/
def isDyffBannerLine (line : String) : Bool :=
  let trimmed := goTrimSpace line
  goContainsStr line "_        __  __" ||
  goContainsStr trimmed "_| |_   _ / _|/ _|" ||
  goContainsStr trimmed ("/ _" ++ apos ++ " | | | | |_| |_") ||
  goContainsStr trimmed "| (_| | |_| |  _|  _|" ||
  goContainsStr trimmed "\\__,_|\\__, |_| |_|" ||
  goContainsStr trimmed "|___/" ||
  (goContainsStr line "returned" &&
    (goContainsStr line "difference" || goContainsStr line "differences"))

/-- Loop of `cleanDyffOutput`: drops lines containing the temp directory,
banner lines, and blank lines while nothing has been kept yet; `cleaned`
accumulates the kept lines in order. -/
def cleanDyffLines (tmpDir : String) (cleaned : List String) : List String → List String
  | [] => cleaned
  | line :: rest =>
    if goContainsStr line tmpDir then
      cleanDyffLines tmpDir cleaned rest
    else if isDyffBannerLine line then
      cleanDyffLines tmpDir cleaned rest
    else if cleaned.isEmpty && goTrimSpace line = "" then
      cleanDyffLines tmpDir cleaned rest
    else
      cleanDyffLines tmpDir (cleaned ++ [line]) rest

/-- cleanDyffOutput removes dyff banner and temp file paths to make output
clean and deterministic. -/
def cleanDyffOutput (output tmpDir : String) : String :=
  goJoinLines (cleanDyffLines tmpDir [] (goSplitLines output))

/-- Tail of the dyff adapter's `ComputeDiff` after the subprocess ran: the
raw stdout is cleaned; if nothing but whitespace remains the semantic diff
is the empty string, otherwise the labelled header is prepended and the
whole result trimmed. -/
def dyffPostProcess (baseName headName rawOutput tmpDir : String) : String :=
  let output := cleanDyffOutput rawOutput tmpDir
  if goTrimSpace output = "" then ""
  else
    goTrimSpace ("--- " ++ baseName ++ "\n" ++ "+++ " ++ headName ++ "\n\n" ++ output)

/-! ## Chart-name extraction (chart_names.go) -/

/-- Loop of `ExtractChartNames` with the `seen` map as a list of names
already emitted. -/
def extractChartNamesAux (seen : List String) : List String → List String
  | [] => []
  | f :: rest =>
    if ¬ goHasPre f "charts/" then
      extractChartNamesAux seen rest
    else
      let parts := goSplitN3Slash f
      if parts.length < 2 ∨ parts.getD 1 "" = "" then
        extractChartNamesAux seen rest
      else
        let name := parts.getD 1 ""
        if seen.contains name then
          extractChartNamesAux seen rest
        else
          name :: extractChartNamesAux (seen ++ [name]) rest

/-- ExtractChartNames parses file paths and returns unique chart names from
paths matching `charts/{name}/...`. -/
def ExtractChartNames (files : List String) : List String :=
  extractChartNamesAux [] files

/-! ## Theorems -/

/-- Claim C1: the assigned status is `StatusSuccess` with summary
"No changes detected." exactly when both diff outputs are empty, and
`StatusChanges` with a summary naming chart and environment whenever at
least one of the two outputs is non-empty. -/
theorem classifyDiff_success_iff_changes (chart env sd ud : String) :
    (classifyDiff chart env sd ud = (.StatusSuccess, "No changes detected.") ↔
      sd = "" ∧ ud = "") ∧
    ((sd ≠ "" ∨ ud ≠ "") →
      classifyDiff chart env sd ud =
        (.StatusChanges, "Changes detected in " ++ chart ++ " for environment " ++ env ++ ".")) := by
  unfold classifyDiff changesSummary
  by_cases hs : sd = "" <;> by_cases hu : ud = "" <;> simp [hs, hu]

/-- Witness for C1: on a non-empty semantic diff the classification is
`StatusChanges` with the chart- and environment-naming summary. -/
theorem classifyDiff_success_iff_changes_witness :
    classifyDiff "my-app" "prod" "sem" "" =
      (.StatusChanges, "Changes detected in " ++ "my-app" ++ " for environment " ++ "prod" ++ ".") :=
  (classifyDiff_success_iff_changes "my-app" "prod" "sem" "").2 (Or.inl (by decide))

/-- Claim C2: every DiffResult produced by the pipeline satisfies the
status invariant: `StatusSuccess` implies both diff strings empty,
`StatusChanges` implies at least one non-empty, and `StatusError` implies
both empty with the Summary carrying the failure detail. -/
theorem diffResult_status_invariant (chart env b h sd ud msg : String) :
    statusInvariant (mkDiffResult chart env b h sd ud) ∧
    statusInvariant (mkErrorResult chart env b h msg) ∧
    (mkErrorResult chart env b h msg).Status = .StatusError ∧
    (mkErrorResult chart env b h msg).Summary = msg := by
  refine ⟨?_, ?_, rfl, rfl⟩
  · unfold statusInvariant mkDiffResult classifyDiff
    by_cases hs : sd = "" <;> by_cases hu : ud = "" <;> simp [hs, hu]
  · unfold statusInvariant mkErrorResult
    simp

/-- Witness for C2: a concrete success result and a concrete error result
both satisfy the status invariant. -/
theorem diffResult_status_invariant_witness :
    statusInvariant (mkDiffResult "my-app" "prod" "main" "feat" "" "") ∧
    (mkErrorResult "my-app" "prod" "main" "feat" "helm render failed").Summary =
      "helm render failed" :=
  ⟨(diffResult_status_invariant "my-app" "prod" "main" "feat" "" "" "x").1,
   (diffResult_status_invariant "my-app" "prod" "main" "feat" "" "" "helm render failed").2.2.2⟩

/-- Claim C3: IsNotFound holds exactly for errors that are or wrap a typed
NotFoundError; an error whose message merely contains "404" without
wrapping a NotFoundError is not classified as NotFound. -/
theorem isNotFound_typed_only :
    (∀ err : Option GoError,
      IsNotFound err = true ↔ ∃ e, err = some e ∧ asNotFoundError e = true) ∧
    (∀ msg inner, IsNotFound (some (.wrapErr msg inner)) = asNotFoundError inner) ∧
    (goContainsStr (errorMessage (.basicErr "HTTP 404 Not Found")) "404" = true ∧
      IsNotFound (some (.basicErr "HTTP 404 Not Found")) = false) ∧
    IsNotFound (some (.wrapErr "failed to fetch: charts/my-app not found at ref main"
      (.notFoundErr "charts/my-app" "main"))) = true := by
  refine ⟨?_, ?_, by decide, by decide⟩
  · intro err
    cases err with
    | none => simp [IsNotFound]
    | some e => simp [IsNotFound]
  · intro msg inner
    rfl

/-- Claim C7 (part): PreferredDiff returns the semantic diff when non-empty
and the unified diff otherwise, and the PR-comment detail section of a
changed result shows exactly this preferred diff, never both. -/
theorem preferredDiff_preference_rule (r : DiffResult) :
    (r.SemanticDiff ≠ "" → r.PreferredDiff = r.SemanticDiff) ∧
    (r.SemanticDiff = "" → r.PreferredDiff = r.UnifiedDiff) ∧
    (r.SemanticDiff = "" ∧ r.UnifiedDiff = "" → r.PreferredDiff = "") ∧
    (r.Status = .StatusChanges →
      detailFor r = "### " ++ r.ChartName ++ "/" ++ r.Environment ++ "\n" ++
        ("<details><summary>View diff</summary>\n\n" ++
         "```diff\n" ++ r.PreferredDiff ++ "\n```\n" ++
         "</details>\n\n")) := by
  by_cases hs : r.SemanticDiff = ""
  · refine ⟨fun hn => absurd hs hn, fun _ => ?_, fun hb => ?_, fun hst => ?_⟩
    · simp [DiffResult.PreferredDiff, hs]
    · simp [DiffResult.PreferredDiff, hs, hb.2]
    · simp [detailFor, DiffResult.PreferredDiff, hs, hst]
  · refine ⟨fun _ => ?_, fun he => absurd he hs, fun hb => absurd hb.1 hs, fun hst => ?_⟩
    · simp [DiffResult.PreferredDiff, hs]
    · simp [detailFor, DiffResult.PreferredDiff, hs, hst]

/-- Witness for C7: with both diffs present and status `Changes`, the
detail section shows the semantic diff only. -/
theorem preferredDiff_preference_rule_witness :
    (DiffResult.mk "my-app" "prod" "main" "feat" .StatusChanges false "udiff" "sdiff"
      "s").PreferredDiff = "sdiff" ∧
    detailFor (DiffResult.mk "my-app" "prod" "main" "feat" .StatusChanges false "udiff" "sdiff"
      "s") = "### " ++ "my-app" ++ "/" ++ "prod" ++ "\n" ++
        ("<details><summary>View diff</summary>\n\n" ++
         "```diff\n" ++ "sdiff" ++ "\n```\n" ++
         "</details>\n\n") := by
  have h := preferredDiff_preference_rule
    (DiffResult.mk "my-app" "prod" "main" "feat" .StatusChanges false "udiff" "sdiff" "s")
  refine ⟨h.1 (by decide), ?_⟩
  have hd := h.2.2.2 rfl
  rw [hd, h.1 (by decide)]

/-- Claim C9: CountByStatus is a pure reduction where each result
contributes to exactly one of the three counters according to its status,
so the counts sum to the input length. -/
theorem countByStatus_partition (results : List DiffResult) :
    CountByStatus results =
      ((results.filter fun r => decide (r.Status = .StatusSuccess)).length,
       (results.filter fun r => decide (r.Status = .StatusChanges)).length,
       (results.filter fun r => decide (r.Status = .StatusError)).length) ∧
    (CountByStatus results).1 + (CountByStatus results).2.1 + (CountByStatus results).2.2 =
      results.length := by
  induction results with
  | nil => exact ⟨rfl, rfl⟩
  | cons r rest ih =>
    have h1 := ih.1
    have h2 := ih.2
    constructor
    · cases h : r.Status <;>
        simp_all [CountByStatus, List.filter_cons, h]
    · cases h : r.Status <;>
        simp_all [CountByStatus, h] <;> omega

/-- Claim C6: the summary document consists of the fixed header, exactly
one table row per input result (chart, environment, two-state label), then
one detail section per result; an `Error` result's row reads "No Changes"
and its detail section reads "No changes detected.". -/
theorem prComment_table_rows (results : List DiffResult) (r : DiffResult) :
    formatPRComment results =
      "## Chart-Sentry Diff Report\n\n" ++
      "| Chart | Environment | Status |\n" ++
      "|-------|-------------|--------|\n" ++
      strConcat (results.map rowFor) ++ "\n" ++
      strConcat (results.map detailFor) ∧
    (results.map rowFor).length = results.length ∧
    rowFor r = "| " ++ r.ChartName ++ " | " ++ r.Environment ++ " | " ++
      (if r.Status = .StatusChanges then "Changed" else "No Changes") ++ " |\n" ∧
    (r.Status = .StatusError →
      rowFor r = "| " ++ r.ChartName ++ " | " ++ r.Environment ++ " | " ++
        "No Changes" ++ " |\n" ∧
      detailFor r = "### " ++ r.ChartName ++ "/" ++ r.Environment ++ "\n" ++
        "No changes detected.\n\n") := by
  refine ⟨rfl, by simp, rfl, fun herr => ⟨?_, ?_⟩⟩
  · simp [rowFor, statusLabel, herr]
  · simp [detailFor, herr]

/-- Witness for C6: an error-status result yields the "No Changes" row and
the "No changes detected." detail section. -/
theorem prComment_table_rows_witness :
    rowFor (DiffResult.mk "my-app" "prod" "main" "feat" .StatusError false "" "" "boom") =
      "| " ++ "my-app" ++ " | " ++ "prod" ++ " | " ++ "No Changes" ++ " |\n" ∧
    detailFor (DiffResult.mk "my-app" "prod" "main" "feat" .StatusError false "" "" "boom") =
      "### " ++ "my-app" ++ "/" ++ "prod" ++ "\n" ++ "No changes detected.\n\n" :=
  (prComment_table_rows []
    (DiffResult.mk "my-app" "prod" "main" "feat" .StatusError false "" "" "boom")).2.2.2 rfl

/-- Number of `StatusChanges` results counted by the check-run header loop
equals `countP` of the changes predicate. -/
theorem countChanged_eq_countP (l : List DiffResult) :
    (countChangedUnchanged l).1 = l.countP fun r => decide (r.Status = .StatusChanges) := by
  induction l with
  | nil => rfl
  | cons r rest ih =>
    by_cases h : r.Status = .StatusChanges <;>
      simp [countChangedUnchanged, List.countP_cons, h, ih]


/-- Conclusion token of the check-run header: positivity of the changed
count is the same condition as "some result has StatusChanges". -/
theorem conclusion_token_eq (l : List DiffResult) :
    (if (countChangedUnchanged l).1 > 0 then "neutral" else "success") =
    (if l.any (fun r => decide (r.Status = .StatusChanges)) then "neutral" else "success") := by
  rw [countChanged_eq_countP]
  cases h : l.any (fun r => decide (r.Status = .StatusChanges)) with
  | true =>
    have hpos : 0 < l.countP (fun r => decide (r.Status = .StatusChanges)) := by
      rw [List.countP_pos_iff]
      rcases List.any_eq_true.mp h with ⟨x, hx, hpx⟩
      exact ⟨x, hx, hpx⟩
    simp [hpos]
  | false =>
    have hzero : l.countP (fun r => decide (r.Status = .StatusChanges)) = 0 := by
      rw [List.countP_eq_zero]
      intro a ha
      exact List.any_eq_false.mp h a ha
    simp [hzero]

/-- Claim C5: the check-run document's conclusion token is "neutral" when
some result of the group has `StatusChanges` and "success" otherwise; in
particular a group of only `StatusSuccess` and `StatusError` results gets
"success". -/
theorem checkRun_conclusion_token (r0 : DiffResult) (rest : List DiffResult) :
    (∃ tail, formatCheckRunMarkdown (r0 :: rest) =
      "# chart-sentry: " ++ r0.ChartName ++ "\n\n" ++
      "**Status:** completed\n" ++
      "**Conclusion:** " ++
        (if (r0 :: rest).any (fun r => decide (r.Status = .StatusChanges)) then "neutral"
         else "success") ++
      "\n\n" ++ tail) ∧
    ((∀ r ∈ r0 :: rest, r.Status = .StatusSuccess ∨ r.Status = .StatusError) →
      ∃ tail, formatCheckRunMarkdown (r0 :: rest) =
        "# chart-sentry: " ++ r0.ChartName ++ "\n\n" ++
        "**Status:** completed\n" ++
        "**Conclusion:** " ++ "success" ++ "\n\n" ++ tail) := by
  have hbody : formatCheckRunMarkdown (r0 :: rest) =
      "# chart-sentry: " ++ r0.ChartName ++ "\n\n" ++
      "**Status:** completed\n" ++
      "**Conclusion:** " ++
        (if (countChangedUnchanged (r0 :: rest)).1 > 0 then "neutral" else "success") ++
      "\n\n" ++
      "## Helm diff — " ++ r0.ChartName ++ "\n\n" ++
      "### Summary\n" ++
      "Analyzed " ++ toString (r0 :: rest).length ++ " environment(s): " ++
        toString (countChangedUnchanged (r0 :: rest)).1 ++ " changed, " ++
        toString (countChangedUnchanged (r0 :: rest)).2 ++ " unchanged\n\n" ++
      "### Output\n" ++
      joinSepNewline ((r0 :: rest).map envSection) := rfl
  rw [conclusion_token_eq] at hbody
  constructor
  · refine ⟨"## Helm diff — " ++ r0.ChartName ++ "\n\n" ++
      "### Summary\n" ++
      "Analyzed " ++ toString (r0 :: rest).length ++ " environment(s): " ++
        toString (countChangedUnchanged (r0 :: rest)).1 ++ " changed, " ++
        toString (countChangedUnchanged (r0 :: rest)).2 ++ " unchanged\n\n" ++
      "### Output\n" ++
      joinSepNewline ((r0 :: rest).map envSection), ?_⟩
    rw [hbody]
    simp only [String.append_assoc]
  · intro hall
    have hany : (r0 :: rest).any (fun r => decide (r.Status = .StatusChanges)) = false := by
      simp only [List.any_eq_false, decide_eq_true_eq]
      intro r hr
      rcases hall r hr with h | h <;> simp [h]
    rw [hany] at hbody
    simp only [Bool.false_eq_true, if_false] at hbody
    refine ⟨"## Helm diff — " ++ r0.ChartName ++ "\n\n" ++
      "### Summary\n" ++
      "Analyzed " ++ toString (r0 :: rest).length ++ " environment(s): " ++
        toString (countChangedUnchanged (r0 :: rest)).1 ++ " changed, " ++
        toString (countChangedUnchanged (r0 :: rest)).2 ++ " unchanged\n\n" ++
      "### Output\n" ++
      joinSepNewline ((r0 :: rest).map envSection), ?_⟩
    rw [hbody]
    simp only [String.append_assoc]

/-- Witness for C5: a group with one success and one error gets conclusion
token "success". -/
theorem checkRun_conclusion_token_witness :
    ∃ tail, formatCheckRunMarkdown
        [DiffResult.mk "my-app" "prod" "main" "feat" .StatusSuccess false "" "" "ok",
         DiffResult.mk "my-app" "staging" "main" "feat" .StatusError false "" "" "boom"] =
      "# chart-sentry: " ++ "my-app" ++ "\n\n" ++
      "**Status:** completed\n" ++
      "**Conclusion:** " ++ "success" ++ "\n\n" ++ tail :=
  (checkRun_conclusion_token
    (DiffResult.mk "my-app" "prod" "main" "feat" .StatusSuccess false "" "" "ok")
    [DiffResult.mk "my-app" "staging" "main" "feat" .StatusError false "" "" "boom"]).2
    (by decide)

/-- Second slash-separated segment of a path (empty when absent). -/
def secondSlashSeg (f : String) : String :=
  (goSplitSlash f).getD 1 ""

/-- Per-path contribution stated by the repository convention: a path
contributes a chart name exactly when it begins with "charts/" and its
second slash-separated segment is non-empty. -/
def specChartNameOf (f : String) : Option String :=
  if goHasPre f "charts/" = true ∧ secondSlashSeg f ≠ "" then some (secondSlashSeg f) else none

/-- First-occurrence dedup of a list of names, keeping input order. -/
def firstOccurAux (seen : List String) : List String → List String
  | [] => []
  | x :: xs =>
    if seen.contains x then firstOccurAux seen xs
    else x :: firstOccurAux (seen ++ [x]) xs

/-- Character-list prefixes decompose the list into prefix and remainder. -/
theorem isPrefixCharsOf_append :
    ∀ (p s : List Char), isPrefixCharsOf p s = true → ∃ rest, s = p ++ rest
  | [], s, _ => ⟨s, rfl⟩
  | a :: as, [], h => by simp [isPrefixCharsOf] at h
  | a :: as, b :: bs, h => by
    simp only [isPrefixCharsOf, Bool.and_eq_true, decide_eq_true_eq] at h
    obtain ⟨hab, hrec⟩ := h
    obtain ⟨rest, hr⟩ := isPrefixCharsOf_append as bs hrec
    subst hab
    exact ⟨rest, by rw [hr]; rfl⟩

/-- Splitting always yields at least one field. -/
theorem splitOnCharAux_ne_nil (sep : Char) (acc : List Char) :
    ∀ l, splitOnCharAux sep acc l ≠ [] := by
  intro l
  induction l generalizing acc with
  | nil => simp [splitOnCharAux]
  | cons c cs ih =>
    by_cases h : c = sep <;> simp [splitOnCharAux, h, ih]

/-- Splitting a list beginning with the characters of "charts/" peels off
the first field "charts". -/
theorem splitOnCharAux_chartsSlash (rest : List Char) :
    splitOnCharAux '/' [] ("charts/".data ++ rest) =
      "charts".data :: splitOnCharAux '/' [] rest := by
  show splitOnCharAux '/' [] (['c', 'h', 'a', 'r', 't', 's', '/'] ++ rest) =
    ['c', 'h', 'a', 'r', 't', 's'] :: splitOnCharAux '/' [] rest
  simp [splitOnCharAux]

/-- Paths starting with "charts/" split into "charts", a second segment and
a (possibly empty) remainder, the second segment being `secondSlashSeg`. -/
theorem goSplitSlash_charts (f : String) (h : goHasPre f "charts/" = true) :
    ∃ b tail, goSplitSlash f = "charts" :: b :: tail ∧ secondSlashSeg f = b := by
  obtain ⟨rest, hr⟩ := isPrefixCharsOf_append "charts/".data f.data h
  have h2 : splitOnCharAux '/' [] f.data = "charts".data :: splitOnCharAux '/' [] rest := by
    rw [hr]
    exact splitOnCharAux_chartsSlash rest
  obtain ⟨hd, tl, hsplit⟩ : ∃ hd tl, splitOnCharAux '/' [] rest = hd :: tl := by
    cases hs : splitOnCharAux '/' [] rest with
    | nil => exact absurd hs (splitOnCharAux_ne_nil _ _ _)
    | cons hd tl => exact ⟨hd, tl, rfl⟩
  refine ⟨String.mk hd, tl.map String.mk, ?_, ?_⟩
  · show (splitOnCharAux '/' [] f.data).map String.mk = _
    rw [h2, hsplit]
    rfl
  · show ((splitOnCharAux '/' [] f.data).map String.mk).getD 1 "" = _
    rw [h2, hsplit]
    rfl

/-- For a "charts/"-prefixed path, `SplitN` has at least two fields and its
second field is the second slash segment. -/
theorem goSplitN3_of_charts (f : String) (h : goHasPre f "charts/" = true) :
    ¬ (goSplitN3Slash f).length < 2 ∧ (goSplitN3Slash f).getD 1 "" = secondSlashSeg f := by
  obtain ⟨b, tail, hsplit, hseg⟩ := goSplitSlash_charts f h
  unfold goSplitN3Slash
  rw [hsplit]
  cases tail with
  | nil => simp [hseg]
  | cons c rest => simp [hseg]

/-- Loop of `ExtractChartNames` computes the first-occurrence dedup of the
per-path contributions. -/
theorem extractAux_eq_firstOccur :
    ∀ (files seen : List String),
      extractChartNamesAux seen files = firstOccurAux seen (files.filterMap specChartNameOf) := by
  intro files
  induction files with
  | nil => intro seen; rfl
  | cons f rest ih =>
    intro seen
    by_cases hpre : goHasPre f "charts/" = true
    · obtain ⟨hlen, hseg⟩ := goSplitN3_of_charts f hpre
      simp only [List.getD_eq_getElem?_getD] at hseg
      by_cases hempty : secondSlashSeg f = ""
      · have hspec : specChartNameOf f = none := by simp [specChartNameOf, hempty]
        simp [extractChartNamesAux, List.getD_eq_getElem?_getD, hpre, hlen, hseg, hempty,
          hspec, ih]
      · have hspec : specChartNameOf f = some (secondSlashSeg f) := by
          simp [specChartNameOf, hpre, hempty]
        by_cases hseen : secondSlashSeg f ∈ seen
        · simp [extractChartNamesAux, firstOccurAux, List.getD_eq_getElem?_getD, hpre, hlen,
            hseg, hempty, hspec, hseen, ih]
        · simp [extractChartNamesAux, firstOccurAux, List.getD_eq_getElem?_getD, hpre, hlen,
            hseg, hempty, hspec, hseen, ih]
    · have hspec : specChartNameOf f = none := by simp [specChartNameOf, hpre]
      simp [extractChartNamesAux, hpre, hspec, ih]

/-- Claim C10: ExtractChartNames returns chart names in first-occurrence
order with duplicates removed, a path contributing exactly when it starts
with "charts/" and its second slash segment is non-empty; "charts/foo"
contributes "foo" while "charts/", "charts//..." and non-"charts/" paths
contribute nothing. -/
theorem extractChartNames_spec (files : List String) :
    ExtractChartNames files = firstOccurAux [] (files.filterMap specChartNameOf) ∧
    ExtractChartNames ["charts/foo"] = ["foo"] ∧
    ExtractChartNames ["charts/", "charts//nested", "other/charts/x", "README.md"] = [] ∧
    ExtractChartNames ["charts/app/a.yaml", "charts/app/b.yaml", "charts/zed/c.yaml"] =
      ["app", "zed"] :=
  ⟨extractAux_eq_firstOccur files [], by decide, by decide, by decide⟩

/-- Keep-predicate of the cleaning loop: a line survives iff it neither
contains the temp directory nor matches the banner patterns. -/
def keepDyffLine (tmp l : String) : Bool :=
  !(goContainsStr l tmp) && !(isDyffBannerLine l)

/-- Blank-line predicate (whitespace-only) used for leading-line removal. -/
def isBlankLine (l : String) : Bool :=
  decide (goTrimSpace l = "")

/-- Once a line has been kept, the loop reduces to a plain filter. -/
theorem cleanDyffLines_nonempty (tmp : String) :
    ∀ (lines cleaned : List String), cleaned ≠ [] →
      cleanDyffLines tmp cleaned lines = cleaned ++ lines.filter (keepDyffLine tmp) := by
  intro lines
  induction lines with
  | nil => intro cleaned _; simp [cleanDyffLines]
  | cons line rest ih =>
    intro cleaned hne
    have hempty : cleaned.isEmpty = false := by
      cases cleaned with
      | nil => exact absurd rfl hne
      | cons a b => rfl
    by_cases h1 : goContainsStr line tmp = true
    · simp [cleanDyffLines, h1, List.filter_cons, keepDyffLine, ih cleaned hne]
    · by_cases h2 : isDyffBannerLine line = true
      · simp [cleanDyffLines, h1, h2, List.filter_cons, keepDyffLine, ih cleaned hne]
      · have hkeep : keepDyffLine tmp line = true := by
          simp [keepDyffLine, Bool.eq_false_iff.mpr h1, Bool.eq_false_iff.mpr h2]
        have := ih (cleaned ++ [line]) (by simp)
        simp [cleanDyffLines, h1, h2, hempty, List.filter_cons, hkeep, this]

/-- Starting from the empty accumulator, the loop filters and then trims
leading blank lines. -/
theorem cleanDyffLines_empty (tmp : String) :
    ∀ lines, cleanDyffLines tmp [] lines =
      (lines.filter (keepDyffLine tmp)).dropWhile isBlankLine := by
  intro lines
  induction lines with
  | nil => rfl
  | cons line rest ih =>
    by_cases h1 : goContainsStr line tmp = true
    · simp [cleanDyffLines, h1, List.filter_cons, keepDyffLine, ih]
    · by_cases h2 : isDyffBannerLine line = true
      · simp [cleanDyffLines, h1, h2, List.filter_cons, keepDyffLine, ih]
      · have hkeep : keepDyffLine tmp line = true := by
          simp [keepDyffLine, Bool.eq_false_iff.mpr h1, Bool.eq_false_iff.mpr h2]
        by_cases h3 : goTrimSpace line = ""
        · simp [cleanDyffLines, h1, h2, h3, List.filter_cons, hkeep, List.dropWhile_cons,
            isBlankLine, ih]
        · have := cleanDyffLines_nonempty tmp rest [line] (by simp)
          simp [cleanDyffLines, h1, h2, h3, List.filter_cons, hkeep, List.dropWhile_cons,
            isBlankLine, this]

/-- Head of a `dropWhile` never satisfies the dropped predicate. -/
theorem head_dropWhile_not (p : String → Bool) :
    ∀ (l : List String) (h : String), (l.dropWhile p).head? = some h → p h = false := by
  intro l
  induction l with
  | nil => intro h hh; simp [List.dropWhile] at hh
  | cons c cs ih =>
    intro h hh
    by_cases hc : p c = true
    · rw [List.dropWhile_cons_of_pos hc] at hh
      exact ih h hh
    · rw [List.dropWhile_cons_of_neg hc] at hh
      simp only [List.head?_cons, Option.some.injEq] at hh
      subst hh
      exact Bool.eq_false_iff.mpr hc

/-- Claim C8: the cleaning step filters out every line containing the temp
directory and every banner line, trims leading blank lines (so the result
never starts with a blank line), and a whitespace-only cleaned output makes
the semantic diff returned by the adapter empty. -/
theorem cleanDyffOutput_normalization (out tmp b hd : String) :
    cleanDyffLines tmp [] (goSplitLines out) =
      ((goSplitLines out).filter (keepDyffLine tmp)).dropWhile isBlankLine ∧
    (∀ l ∈ cleanDyffLines tmp [] (goSplitLines out),
      goContainsStr l tmp = false ∧ isDyffBannerLine l = false) ∧
    (∀ h, (cleanDyffLines tmp [] (goSplitLines out)).head? = some h →
      goTrimSpace h ≠ "") ∧
    (goTrimSpace (cleanDyffOutput out tmp) = "" → dyffPostProcess b hd out tmp = "") := by
  refine ⟨cleanDyffLines_empty tmp _, ?_, ?_, ?_⟩
  · intro l hl
    rw [cleanDyffLines_empty] at hl
    have hmem : l ∈ (goSplitLines out).filter (keepDyffLine tmp) :=
      (List.dropWhile_sublist _).subset hl
    have hkeep := List.of_mem_filter hmem
    simp only [keepDyffLine, Bool.and_eq_true, Bool.not_eq_true'] at hkeep
    exact hkeep
  · intro h hh
    rw [cleanDyffLines_empty] at hh
    have := head_dropWhile_not isBlankLine _ h hh
    simpa [isBlankLine] using this
  · intro hws
    simp [dyffPostProcess, hws]

/-- Witness for C8: a raw dyff output consisting only of a line mentioning
the temp directory and a blank line cleans to nothing, so the adapter
returns the empty semantic diff. -/
theorem cleanDyffOutput_normalization_witness :
    dyffPostProcess "my-app/prod (main)" "my-app/prod (feat)"
      "dyff between /tmp/cs-dyff1/base.yaml /tmp/cs-dyff1/head.yaml\n\n" "/tmp/cs-dyff1" = "" :=
  (cleanDyffOutput_normalization
    "dyff between /tmp/cs-dyff1/base.yaml /tmp/cs-dyff1/head.yaml\n\n" "/tmp/cs-dyff1"
    "my-app/prod (main)" "my-app/prod (feat)").2.2.2 (by decide)

/-! ## Grouping characterization -/

/-- Results belonging to one chart, in input order. -/
def filterChart (c : String) (l : List DiffResult) : List DiffResult :=
  l.filter fun r => decide (r.ChartName = c)

/-- Chart names of `l` not yet in `seen`, in first-occurrence order: the
order in which `GroupByChart` creates groups. -/
def newKeys (seen : List String) : List DiffResult → List String
  | [] => []
  | r :: rest =>
    if seen.contains r.ChartName then newKeys seen rest
    else r.ChartName :: newKeys (seen ++ [r.ChartName]) rest

/-- New keys avoid the seen set. -/
theorem newKeys_not_mem :
    ∀ (l : List DiffResult) (seen : List String) (c : String),
      c ∈ newKeys seen l → c ∉ seen := by
  intro l
  induction l with
  | nil => intro seen c hc; simp [newKeys] at hc
  | cons r rest ih =>
    intro seen c hc
    by_cases hmem : r.ChartName ∈ seen
    · rw [newKeys, if_pos (by simpa using hmem)] at hc
      exact ih seen c hc
    · rw [newKeys, if_neg (by simpa using hmem)] at hc
      rcases List.mem_cons.mp hc with rfl | hc
      · exact hmem
      · intro hs
        exact ih (seen ++ [r.ChartName]) c hc (List.mem_append_left _ hs)

/-- New keys are pairwise distinct. -/
theorem newKeys_nodup :
    ∀ (l : List DiffResult) (seen : List String), (newKeys seen l).Nodup := by
  intro l
  induction l with
  | nil => intro seen; simp [newKeys]
  | cons r rest ih =>
    intro seen
    by_cases hmem : r.ChartName ∈ seen
    · rw [newKeys, if_pos (by simpa using hmem)]
      exact ih seen
    · rw [newKeys, if_neg (by simpa using hmem)]
      refine List.nodup_cons.mpr ⟨?_, ih _⟩
      intro hin
      exact newKeys_not_mem rest (seen ++ [r.ChartName]) _ hin
        (List.mem_append_right _ (List.mem_singleton.mpr rfl))

/-- Every chart name of the input is seen already or among the new keys. -/
theorem newKeys_covers :
    ∀ (l : List DiffResult) (seen : List String) (r : DiffResult),
      r ∈ l → r.ChartName ∈ seen ∨ r.ChartName ∈ newKeys seen l := by
  intro l
  induction l with
  | nil => intro seen r hr; simp at hr
  | cons x rest ih =>
    intro seen r hr
    by_cases hmem : x.ChartName ∈ seen
    · rw [newKeys, if_pos (by simpa using hmem)]
      rcases List.mem_cons.mp hr with rfl | hr
      · exact Or.inl hmem
      · exact ih seen r hr
    · rw [newKeys, if_neg (by simpa using hmem)]
      rcases List.mem_cons.mp hr with rfl | hr
      · exact Or.inr (List.mem_cons_self _ _)
      · rcases ih (seen ++ [x.ChartName]) r hr with h | h
        · rcases List.mem_append.mp h with h | h
          · exact Or.inl h
          · exact Or.inr (List.mem_cons.mpr (Or.inl (List.mem_singleton.mp h)))
        · exact Or.inr (List.mem_cons.mpr (Or.inr h))

/-- Every new key names some result of the input. -/
theorem newKeys_source :
    ∀ (l : List DiffResult) (seen : List String) (c : String),
      c ∈ newKeys seen l → ∃ r ∈ l, r.ChartName = c := by
  intro l
  induction l with
  | nil => intro seen c hc; simp [newKeys] at hc
  | cons r rest ih =>
    intro seen c hc
    by_cases hmem : r.ChartName ∈ seen
    · rw [newKeys, if_pos (by simpa using hmem)] at hc
      rcases ih seen c hc with ⟨x, hx, hxc⟩
      exact ⟨x, List.mem_cons.mpr (Or.inr hx), hxc⟩
    · rw [newKeys, if_neg (by simpa using hmem)] at hc
      rcases List.mem_cons.mp hc with rfl | hc
      · exact ⟨r, List.mem_cons_self _ _, rfl⟩
      · rcases ih _ c hc with ⟨x, hx, hxc⟩
        exact ⟨x, List.mem_cons.mpr (Or.inr hx), hxc⟩

/-- Updating a group in place keeps the key sequence. -/
theorem updateGroup_keys (name : String) (r : DiffResult)
    (gs : List (String × List DiffResult)) :
    (updateGroup name r gs).map Prod.fst = gs.map Prod.fst := by
  unfold updateGroup
  rw [List.map_map]
  refine List.map_congr_left ?_
  intro g _
  by_cases h : g.1 = name <;> simp [h]

/-- Invariant of the grouping loop: each existing group gets exactly its
chart's later results appended in order, and one new group appears, in
first-occurrence order, for each unseen chart name. -/
theorem groupByChartAux_eq :
    ∀ (results : List DiffResult) (gs : List (String × List DiffResult)),
      groupByChartAux gs results =
        gs.map (fun g => (g.1, g.2 ++ filterChart g.1 results)) ++
        (newKeys (gs.map Prod.fst) results).map (fun c => (c, filterChart c results)) := by
  intro results
  induction results with
  | nil =>
    intro gs
    simp [groupByChartAux, newKeys, filterChart]
  | cons r rest ih =>
    intro gs
    by_cases hc : r.ChartName ∈ gs.map Prod.fst
    · rw [groupByChartAux, if_pos (by simpa using hc), ih, updateGroup_keys,
        newKeys, if_pos (by simpa using hc)]
      congr 1
      · unfold updateGroup
        rw [List.map_map]
        refine List.map_congr_left ?_
        intro g _
        by_cases hg : g.1 = r.ChartName
        · simp [hg, filterChart, List.filter_cons, List.append_assoc]
        · have : ¬ (r.ChartName = g.1) := fun h => hg h.symm
          simp [hg, filterChart, List.filter_cons, this]
      · refine List.map_congr_left ?_
        intro c' hc'
        have hne : c' ≠ r.ChartName := by
          intro h
          exact newKeys_not_mem rest _ c' hc' (h ▸ hc)
        have : ¬ (r.ChartName = c') := fun h => hne h.symm
        simp [filterChart, List.filter_cons, this]
    · rw [groupByChartAux, if_neg (by simpa using hc), ih]
      have hkeys : (gs ++ [(r.ChartName, [r])]).map Prod.fst =
          gs.map Prod.fst ++ [r.ChartName] := by simp
      rw [hkeys, newKeys, if_neg (by simpa using hc)]
      rw [List.map_append, List.map_cons]
      have hgs : gs.map (fun g => (g.1, g.2 ++ filterChart g.1 rest)) =
          gs.map (fun g => (g.1, g.2 ++ filterChart g.1 (r :: rest))) := by
        refine List.map_congr_left ?_
        intro g hg
        have hne : g.1 ≠ r.ChartName := by
          intro h
          exact hc (h ▸ List.mem_map_of_mem Prod.fst hg)
        have : ¬ (r.ChartName = g.1) := fun h => hne h.symm
        simp [filterChart, List.filter_cons, this]
      have htail : (newKeys (gs.map Prod.fst ++ [r.ChartName]) rest).map
            (fun c => (c, filterChart c rest)) =
          (newKeys (gs.map Prod.fst ++ [r.ChartName]) rest).map
            (fun c => (c, filterChart c (r :: rest))) := by
        refine List.map_congr_left ?_
        intro c' hc'
        have hne : c' ≠ r.ChartName := by
          intro h
          exact newKeys_not_mem rest _ c' hc'
            (h ▸ List.mem_append_right _ (List.mem_singleton.mpr rfl))
        have : ¬ (r.ChartName = c') := fun h => hne h.symm
        simp [filterChart, List.filter_cons, this]
      rw [hgs, htail]
      simp [filterChart, List.filter_cons, List.append_assoc]

/-- Filtering one chart out of another chart's group yields nothing. -/
theorem filterChart_of_ne (c c' : String) (l : List DiffResult) (h : c' ≠ c) :
    filterChart c (filterChart c' l) = [] := by
  unfold filterChart
  rw [List.filter_filter]
  refine List.filter_eq_nil_iff.mpr ?_
  intro r _
  simp only [Bool.and_eq_true, decide_eq_true_eq, not_and]
  intro h1 h2
  exact h (h2 ▸ h1 ▸ rfl)

/-- Filtering a chart's own group changes nothing. -/
theorem filterChart_idem (c : String) (l : List DiffResult) :
    filterChart c (filterChart c l) = filterChart c l := by
  unfold filterChart
  rw [List.filter_filter]
  refine List.filter_congr ?_
  intro r _
  exact Bool.and_self _

/-- Flattening per-chart filters over a duplicate-free covering name list
permutes the input. -/
theorem flatten_filter_perm :
    ∀ (names : List String) (l : List DiffResult), names.Nodup →
      (∀ r ∈ l, r.ChartName ∈ names) →
      ((names.map (fun c => filterChart c l)).flatten).Perm l := by
  intro names
  induction names with
  | nil =>
    intro l _ hcov
    have : l = [] := List.eq_nil_iff_forall_not_mem.mpr fun r hr => by simpa using hcov r hr
    simp [this]
  | cons c cs ih =>
    intro l hnd hcov
    have hcnotin : c ∉ cs := (List.nodup_cons.mp hnd).1
    have hndcs : cs.Nodup := (List.nodup_cons.mp hnd).2
    rw [List.map_cons, List.flatten_cons]
    have hmapeq : cs.map (fun c' => filterChart c' l) =
        cs.map (fun c' => filterChart c' (l.filter (fun r => !(decide (r.ChartName = c))))) := by
      refine List.map_congr_left ?_
      intro c' hc'
      have hne : c' ≠ c := fun h => hcnotin (h ▸ hc')
      unfold filterChart
      rw [List.filter_filter]
      refine (List.filter_congr ?_).symm
      intro r _
      by_cases h : r.ChartName = c'
      · have hrc : r.ChartName ≠ c := by rw [h]; exact hne
        simp [h, hrc, hne]
      · simp [h]
    have hcovrest : ∀ r ∈ l.filter (fun r => !(decide (r.ChartName = c))), r.ChartName ∈ cs := by
      intro r hr
      have hmem := List.mem_of_mem_filter hr
      have hprop := List.of_mem_filter hr
      simp only [Bool.not_eq_true', decide_eq_false_iff_not] at hprop
      rcases List.mem_cons.mp (hcov r hmem) with h | h
      · exact absurd h hprop
      · exact h
    have hperm := ih (l.filter (fun r => !(decide (r.ChartName = c)))) hndcs hcovrest
    rw [hmapeq]
    unfold filterChart
    exact (List.Perm.append_left _ hperm).trans (List.filter_append_perm _ l)

/-- Filtering one chart out of the flattened groups recovers exactly that
chart's results: flattening never reorders results of one chart.  Split on
whether the chart has a group at all. -/
theorem filterChart_flatten_of_not_mem (c : String) (names : List String)
    (l : List DiffResult) (hnotin : c ∉ names) :
    (names.map (fun c' => filterChart c (filterChart c' l))).flatten = [] := by
  induction names with
  | nil => rfl
  | cons d ds ih =>
    have hne : c ≠ d := fun h => hnotin (h ▸ List.mem_cons_self _ _)
    rw [List.map_cons, List.flatten_cons, filterChart_of_ne c d l hne.symm,
      ih fun h => hnotin (List.mem_cons.mpr (Or.inr h))]
    rfl

/-- On a duplicate-free name list containing `c`, the flattened per-chart
filter of `c` is exactly `c`'s group. -/
theorem filterChart_flatten_of_mem (c : String) (names : List String)
    (l : List DiffResult) (hnd : names.Nodup) (hmem : c ∈ names) :
    (names.map (fun c' => filterChart c (filterChart c' l))).flatten = filterChart c l := by
  induction names with
  | nil => simp at hmem
  | cons d ds ih =>
    rcases List.mem_cons.mp hmem with rfl | hmem'
    · have hnotin : c ∉ ds := (List.nodup_cons.mp hnd).1
      rw [List.map_cons, List.flatten_cons, filterChart_idem,
        filterChart_flatten_of_not_mem c ds l hnotin]
      simp
    · have hne : c ≠ d := by
        intro h
        exact (List.nodup_cons.mp hnd).1 (h ▸ hmem')
      rw [List.map_cons, List.flatten_cons, filterChart_of_ne c d l hne.symm,
        ih (List.nodup_cons.mp hnd).2 hmem']
      simp

/-- Claim C4: GroupByChart creates one group per chart name in
first-occurrence order, each group collecting exactly that chart's results
in input order; the flattened groups are a permutation of the input and
results of one chart are never reordered; groups are never empty. -/
theorem groupByChart_stable_grouping (results : List DiffResult) :
    GroupByChart results = (newKeys [] results).map (fun c => filterChart c results) ∧
    (GroupByChart results).flatten.Perm results ∧
    (∀ c, filterChart c (GroupByChart results).flatten = filterChart c results) ∧
    (∀ g ∈ GroupByChart results, g ≠ []) := by
  have hchar : GroupByChart results =
      (newKeys [] results).map (fun c => filterChart c results) := by
    unfold GroupByChart
    rw [groupByChartAux_eq]
    simp [List.map_map, Function.comp]
  have hnodup := newKeys_nodup results []
  have hcov : ∀ r ∈ results, r.ChartName ∈ newKeys [] results := by
    intro r hr
    rcases newKeys_covers results [] r hr with h | h
    · simp at h
    · exact h
  refine ⟨hchar, ?_, ?_, ?_⟩
  · rw [hchar]
    exact flatten_filter_perm _ _ hnodup hcov
  · intro c
    rw [hchar]
    unfold filterChart
    rw [List.filter_flatten, List.map_map]
    show ((newKeys [] results).map
      (fun c' => filterChart c (filterChart c' results))).flatten = _
    by_cases hmem : c ∈ newKeys [] results
    · exact filterChart_flatten_of_mem c _ results hnodup hmem
    · rw [filterChart_flatten_of_not_mem c _ results hmem]
      refine (List.filter_eq_nil_iff.mpr ?_).symm
      intro r hr
      simp only [decide_eq_true_eq]
      intro h
      exact hmem (h ▸ hcov r hr)
  · intro g hg
    rw [hchar] at hg
    rcases List.mem_map.mp hg with ⟨c, hcmem, rfl⟩
    rcases newKeys_source results [] c hcmem with ⟨r, hr, hrc⟩
    intro hnil
    have := List.filter_eq_nil_iff.mp hnil r hr
    simp [hrc] at this

/-- Witness for C4: a concrete interleaved input groups into two chart
groups in first-seen order with per-chart order preserved. -/
theorem groupByChart_stable_grouping_witness :
    GroupByChart
        [DiffResult.mk "a" "prod" "m" "f" .StatusSuccess false "" "" "s1",
         DiffResult.mk "b" "prod" "m" "f" .StatusChanges false "u" "" "s2",
         DiffResult.mk "a" "staging" "m" "f" .StatusError false "" "" "s3"] =
      (newKeys []
        [DiffResult.mk "a" "prod" "m" "f" .StatusSuccess false "" "" "s1",
         DiffResult.mk "b" "prod" "m" "f" .StatusChanges false "u" "" "s2",
         DiffResult.mk "a" "staging" "m" "f" .StatusError false "" "" "s3"]).map
        (fun c => filterChart c
          [DiffResult.mk "a" "prod" "m" "f" .StatusSuccess false "" "" "s1",
           DiffResult.mk "b" "prod" "m" "f" .StatusChanges false "u" "" "s2",
           DiffResult.mk "a" "staging" "m" "f" .StatusError false "" "" "s3"]) :=
  (groupByChart_stable_grouping
    [DiffResult.mk "a" "prod" "m" "f" .StatusSuccess false "" "" "s1",
     DiffResult.mk "b" "prod" "m" "f" .StatusChanges false "u" "" "s2",
     DiffResult.mk "a" "staging" "m" "f" .StatusError false "" "" "s3"]).1

/-- Witness for C9: a mixed three-result input counts one per bucket and
the buckets sum to the length. -/
theorem countByStatus_partition_witness :
    CountByStatus
        [DiffResult.mk "a" "prod" "m" "f" .StatusSuccess false "" "" "s1",
         DiffResult.mk "a" "staging" "m" "f" .StatusChanges false "u" "" "s2",
         DiffResult.mk "b" "prod" "m" "f" .StatusError false "" "" "s3"] = (1, 1, 1) := by
  have h := (countByStatus_partition
    [DiffResult.mk "a" "prod" "m" "f" .StatusSuccess false "" "" "s1",
     DiffResult.mk "a" "staging" "m" "f" .StatusChanges false "u" "" "s2",
     DiffResult.mk "b" "prod" "m" "f" .StatusError false "" "" "s3"]).1
  rw [h]
  decide

/-- Witness for C10: on a concrete path list the extractor agrees with the
first-occurrence characterization, both yielding the two chart names. -/
theorem extractChartNames_spec_witness :
    ExtractChartNames ["charts/foo", "charts/bar/values.yaml", "docs/readme.md"] =
      ["foo", "bar"] ∧
    firstOccurAux []
      (["charts/foo", "charts/bar/values.yaml", "docs/readme.md"].filterMap specChartNameOf) =
      ["foo", "bar"] := by
  have h := (extractChartNames_spec
    ["charts/foo", "charts/bar/values.yaml", "docs/readme.md"]).1
  constructor
  · rw [h]
    decide
  · decide
